import Mathlib

/-!
Shallow embedding of the pure extraction core of `src/dataconverter.py`:
`parse_text`, `filter_products`, `enrich_with_codes` and their static
configuration tables.  Python strings are modelled as Lean `String`
(character lists); the ASCII fragments of Python's `str.lower`,
`str.strip`, `str.split()`, `str.splitlines()`, the `in` substring test
and the character classes `\w` / `isalpha` are modelled explicitly below
(the inputs the claims quantify over are ordinary text, where the ASCII
behaviour is the relevant one).  Python's `list(set(...))` at the end of
`parse_text` returns the distinct products in an unspecified order; it is
modelled as `List.dedup`, and every claim about the product collection is
stated through membership, never through order.
-/

/-- Model of Python `str.lower` for one character (ASCII case mapping). -/
def lowerChar (c : Char) : Char := c.toLower

/-- Model of Python `str.lower` on a whole string. -/
def lowerStr (s : String) : String := String.mk (s.data.map lowerChar)

/-- Model of Python `str.strip()`: drop leading and trailing whitespace. -/
def stripStr (s : String) : String :=
  String.mk (((s.data.dropWhile Char.isWhitespace).reverse.dropWhile
      Char.isWhitespace).reverse)

/-- Does `needle` occur at the front of `hay`? (helper for the substring test). -/
def subAt : List Char → List Char → Bool
  | [], _ => true
  | _ :: _, [] => false
  | n :: ns, h :: hs => n == h && subAt ns hs

/-- Does `needle` occur anywhere in the list? (helper for the substring test). -/
def hasSubList (needle : List Char) : List Char → Bool
  | [] => needle.isEmpty
  | h :: t => subAt needle (h :: t) || hasSubList needle t

/-- Model of Python's `needle in hay` substring test on strings. -/
def substr (needle hay : String) : Bool := hasSubList needle.data hay.data

/-- Model of Python `str.splitlines()`: split on `\r\n`, `\n`, `\r`; no
trailing empty line for a trailing terminator; empty string gives `[]`. -/
def splitlinesAux : List Char → List Char → List String
  | [], [] => []
  | [], acc => [String.mk acc.reverse]
  | '\r' :: '\n' :: rest, acc => String.mk acc.reverse :: splitlinesAux rest []
  | '\n' :: rest, acc => String.mk acc.reverse :: splitlinesAux rest []
  | '\r' :: rest, acc => String.mk acc.reverse :: splitlinesAux rest []
  | c :: rest, acc => splitlinesAux rest (c :: acc)

/-- Model of Python `text.splitlines()`. -/
def splitlines (text : String) : List String := splitlinesAux text.data []

/-- Token counter, `inTok` says whether we are inside a token: models
`len(line.split())`, Python's whitespace-delimited token count. -/
def countTokensAux : Bool → List Char → Nat
  | _, [] => 0
  | inTok, c :: rest =>
    if c.isWhitespace then countTokensAux false rest
    else if inTok then countTokensAux true rest
    else 1 + countTokensAux true rest

/-- Model of Python `len(line.split())`. -/
def countTokens (cs : List Char) : Nat := countTokensAux false cs

/-- The character class `[\w.-]` of the e-mail regex in `parse_text`
(word characters, dot, dash; `\w` in its ASCII range). -/
def isWordDotDash (c : Char) : Bool :=
  c.isAlphanum || c == '_' || c == '.' || c == '-'

/-- First match of the regex `[\w.-]+@[\w.-]+` in a character list,
scanning left to right exactly as `re.findall(...)[0]` would find it:
`run` accumulates (reversed) the class characters read since the last
non-class character; at an `@` with a non-empty run and at least one
class character following, the greedy match is emitted. -/
def scanEmail : List Char → List Char → Option (List Char)
  | _, [] => none
  | run, c :: rest =>
    if isWordDotDash c then scanEmail (c :: run) rest
    else if c == '@' then
      if run.isEmpty then scanEmail [] rest
      else if (rest.takeWhile isWordDotDash).isEmpty then scanEmail [] rest
      else some (run.reverse ++ '@' :: rest.takeWhile isWordDotDash)
    else scanEmail [] rest

/-- Model of `re.findall(r'[\w\.-]+@[\w\.-]+', line)[0]` (the only use
`parse_text` makes of `findall` is its first element, when non-empty). -/
def findEmail (line : String) : Option String :=
  (scanEmail [] line.data).map String.mk

/-- The contact-info trigger of `parse_text` line 70: any of
`tel`, `adres`, `www`, `http`, `@` occurs in the lowercased line. -/
def contactHit (line_lower : String) : Bool :=
  substr "tel" line_lower || substr "adres" line_lower ||
    substr "www" line_lower || substr "http" line_lower ||
    substr "@" line_lower

/-- The company-marker test of `parse_text` line 76: any of the marker
words occurs in the lowercased line. -/
def companyHit (line_lower : String) : Bool :=
  ["group", "company", "co.", "inc.", "ltd"].any fun word =>
    substr word line_lower

/-- The product-candidate test of `parse_text` line 78: at most five
whitespace-delimited tokens and at least one alphabetic character. -/
def productHit (line : String) : Bool :=
  decide (countTokens line.data ≤ 5) && line.data.any Char.isAlpha

/-- The accumulating state of the `parse_text` loop (and its result). -/
structure ParseState where
  company_name : String
  contact_info : String
  email : String
  products : List String
deriving DecidableEq

/-- One iteration of the `parse_text` loop (lines 68-79 of the source):
the contact-info `if` is a separate statement, followed by the
`if '@' ... elif ... elif` chain. -/
def parseLine (st : ParseState) (line : String) : ParseState :=
  let line_lower := lowerStr line
  let st1 :=
    if contactHit line_lower then
      { st with contact_info := st.contact_info ++ stripStr line ++ "\n" }
    else st
  if substr "@" line then
    match findEmail line with
    | some e => { st1 with email := e }
    | none => st1
  else if companyHit line_lower then
    { st1 with company_name := stripStr line }
  else if productHit line then
    { st1 with products := st1.products ++ [stripStr line] }
  else st1

/-- Model of `parse_text` (source lines 65-80): fold the loop body over
the lines, then `contact_info.strip()` and `list(set(products))`. -/
def parse_text (text : String) : ParseState :=
  let st := (splitlines text).foldl parseLine ⟨"", "", "", []⟩
  { st with contact_info := stripStr st.contact_info,
            products := st.products.dedup }

/-- The `KEYWORDS` table (source lines 22-25) as the total function
`KEYWORDS.get(category, [])` used by `filter_products`. -/
def KEYWORDS (category : String) : List String :=
  if category = "chemicals" then
    ["resin", "chloride", "fluoride", "acid", "soda", "carbonate"]
  else if category = "additives" then
    ["sugar", "flavor", "preservative", "sweetener", "color"]
  else []

/-- Model of `filter_products` (source lines 83-85). -/
def filter_products (products : List String) (category : String) :
    List String :=
  products.filter fun prod =>
    (KEYWORDS category).any fun kw => substr (lowerStr kw) (lowerStr prod)

/-- The `NACE_HS_MAP` table (source lines 27-30) as `NACE_HS_MAP.get p`. -/
def NACE_HS_MAP (p : String) : Option (String × String) :=
  if p = "PVC Resin" then some ("20.16", "3904.10")
  else if p = "Calcium Chloride" then some ("20.13", "2827.20")
  else none

/-- Model of `enrich_with_codes` (source lines 88-93): the loop that
appends `(p, nace, hs)` with `NACE_HS_MAP.get(p, ('', ''))`. -/
def enrich_with_codes (products : List String) :
    List (String × String × String) :=
  products.foldl
    (fun enriched p =>
      let nh := (NACE_HS_MAP p).getD ("", "")
      enriched ++ [(p, nh.1, nh.2)]) []

/-- The per-product enrichment (exact, case-sensitive lookup with
empty-string default), used to state what `enrich_with_codes` computes
element by element. -/
def lookupCodes (p : String) : String × String × String :=
  let nh := (NACE_HS_MAP p).getD ("", "")
  (p, nh.1, nh.2)

/-- A line on which the company-name branch of `parse_text` fires: no
`@` and a company marker in the lowercased line. -/
def companyLine (l : String) : Bool := !substr "@" l && companyHit (lowerStr l)

/-- The e-mail the `parse_text` loop ends with, computed from the lines
alone: the first regex match of the LAST line that contains `@` and
yields a match (the loop overwrites `email` on every matching line). -/
def lastEmail : List String → Option String
  | [] => none
  | l :: ls =>
    match lastEmail ls with
    | some e => some e
    | none => if substr "@" l && (findEmail l).isSome then findEmail l else none

/-- The company name the `parse_text` loop ends with, computed from the
lines alone: the trimmed LAST line on which the company branch fires. -/
def lastCompany : List String → Option String
  | [] => none
  | l :: ls =>
    match lastCompany ls with
    | some c => some c
    | none => if companyLine l then some (stripStr l) else none


/-! ### Step lemmas: what one loop iteration does to each field -/

theorem parseLine_contact (st : ParseState) (l : String) :
    (parseLine st l).contact_info =
      if contactHit (lowerStr l) then st.contact_info ++ stripStr l ++ "\n"
      else st.contact_info := by
  unfold parseLine
  cases hc : contactHit (lowerStr l) <;>
    cases ha : substr "@" l <;>
      cases he : findEmail l <;>
        cases hk : companyHit (lowerStr l) <;>
          cases hp : productHit l <;>
            simp [hc, ha, he, hk, hp]

theorem parseLine_email (st : ParseState) (l : String) :
    (parseLine st l).email =
      if substr "@" l && (findEmail l).isSome then (findEmail l).getD st.email
      else st.email := by
  unfold parseLine
  cases hc : contactHit (lowerStr l) <;>
    cases ha : substr "@" l <;>
      cases he : findEmail l <;>
        cases hk : companyHit (lowerStr l) <;>
          cases hp : productHit l <;>
            simp [hc, ha, he, hk, hp]

theorem parseLine_company (st : ParseState) (l : String) :
    (parseLine st l).company_name =
      if companyLine l then stripStr l else st.company_name := by
  unfold parseLine companyLine
  cases hc : contactHit (lowerStr l) <;>
    cases ha : substr "@" l <;>
      cases he : findEmail l <;>
        cases hk : companyHit (lowerStr l) <;>
          cases hp : productHit l <;>
            simp [hc, ha, he, hk, hp]

theorem parseLine_products (st : ParseState) (l : String) :
    (parseLine st l).products =
      if !substr "@" l && !companyHit (lowerStr l) && productHit l then
        st.products ++ [stripStr l]
      else st.products := by
  unfold parseLine
  cases hc : contactHit (lowerStr l) <;>
    cases ha : substr "@" l <;>
      cases he : findEmail l <;>
        cases hk : companyHit (lowerStr l) <;>
          cases hp : productHit l <;>
            simp [hc, ha, he, hk, hp]

/-! ### Fold lemmas: the loop's final field values from the line list -/

theorem foldl_email (lines : List String) (st : ParseState) :
    (lines.foldl parseLine st).email = (lastEmail lines).getD st.email := by
  induction lines generalizing st with
  | nil => rfl
  | cons l ls ih =>
    rw [List.foldl_cons, ih, lastEmail]
    cases hE : lastEmail ls with
    | some e => simp
    | none =>
      rw [parseLine_email]
      cases hb : (substr "@" l && (findEmail l).isSome) with
      | false => simp [hb]
      | true =>
        cases he : findEmail l with
        | none => rw [he] at hb; simp at hb
        | some e => simp [hb, he]

theorem foldl_company (lines : List String) (st : ParseState) :
    (lines.foldl parseLine st).company_name =
      (lastCompany lines).getD st.company_name := by
  induction lines generalizing st with
  | nil => rfl
  | cons l ls ih =>
    rw [List.foldl_cons, ih, lastCompany]
    cases hC : lastCompany ls with
    | some c => simp
    | none =>
      rw [parseLine_company]
      cases hb : companyLine l <;> simp [hb]

theorem foldl_products_mono (lines : List String) (st : ParseState)
    (x : String) (hx : x ∈ st.products) :
    x ∈ (lines.foldl parseLine st).products := by
  induction lines generalizing st with
  | nil => exact hx
  | cons l ls ih =>
    rw [List.foldl_cons]
    apply ih
    rw [parseLine_products]
    cases hb : (!substr "@" l && !companyHit (lowerStr l) && productHit l) <;>
      simp [hx]

theorem foldl_products_mem (lines : List String) (st : ParseState)
    (line : String) (h : line ∈ lines)
    (hc : (!substr "@" line && !companyHit (lowerStr line) && productHit line)
      = true) :
    stripStr line ∈ (lines.foldl parseLine st).products := by
  induction lines generalizing st with
  | nil => cases h
  | cons l ls ih =>
    rw [List.foldl_cons]
    rcases List.mem_cons.mp h with rfl | hmem
    · apply foldl_products_mono
      rw [parseLine_products, hc]
      simp
    · exact ih _ hmem

theorem parse_text_email (text : String) :
    (parse_text text).email = (lastEmail (splitlines text)).getD "" := by
  unfold parse_text
  rw [foldl_email]

theorem parse_text_company (text : String) :
    (parse_text text).company_name =
      (lastCompany (splitlines text)).getD "" := by
  unfold parse_text
  rw [foldl_company]

theorem parse_text_products_mem (text : String) (line : String)
    (h : line ∈ splitlines text)
    (hc : (!substr "@" line && !companyHit (lowerStr line) && productHit line)
      = true) :
    stripStr line ∈ (parse_text text).products := by
  unfold parse_text
  simp only [List.mem_dedup]
  exact foldl_products_mem _ _ _ h hc

/-! ### The last matching line, as a filter -/

theorem lastCompany_eq_filter (lines : List String) :
    lastCompany lines =
      ((lines.filter companyLine).getLast?).map stripStr := by
  induction lines with
  | nil => rfl
  | cons l ls ih =>
    rw [lastCompany, ih]
    cases hcl : companyLine l with
    | false =>
      rw [List.filter_cons_of_neg (by simp [hcl])]
      cases hls : (ls.filter companyLine).getLast? <;> simp [hcl]
    | true =>
      rw [List.filter_cons_of_pos hcl]
      cases hfl : ls.filter companyLine with
      | nil => simp [hcl]
      | cons y ys =>
        rw [List.getLast?_cons_cons]
        cases hgl : (y :: ys).getLast? with
        | none =>
          rw [List.getLast?_eq_none_iff] at hgl
          exact absurd hgl (by simp)
        | some z => simp

theorem lastEmail_some (lines : List String) (e : String)
    (h : lastEmail lines = some e) : ∃ l, findEmail l = some e := by
  induction lines with
  | nil => simp [lastEmail] at h
  | cons l ls ih =>
    rw [lastEmail] at h
    cases hE : lastEmail ls with
    | some x =>
      rw [hE] at h
      simp at h
      exact ih (by rw [h] at hE; exact hE)
    | none =>
      rw [hE] at h
      cases hb : (substr "@" l && (findEmail l).isSome) with
      | false => rw [hb] at h; simp at h
      | true => rw [hb] at h; simp at h; exact ⟨l, h⟩

/-! ### Shape of a regex match -/

theorem scanEmail_good (cs : List Char) : ∀ run : List Char,
    (∀ c ∈ run, isWordDotDash c = true) →
    ∀ out : List Char, scanEmail run cs = some out →
    out.count '@' = 1 ∧ ∀ c ∈ out, c ≠ '@' → isWordDotDash c = true := by
  induction cs with
  | nil => intro run _ out h; simp [scanEmail] at h
  | cons c rest ih =>
    intro run hrun out h
    rw [scanEmail] at h
    by_cases h1 : isWordDotDash c = true
    · rw [if_pos h1] at h
      refine ih (c :: run) ?_ out h
      intro x hx
      rcases List.mem_cons.mp hx with rfl | hx
      · exact h1
      · exact hrun x hx
    · rw [if_neg h1] at h
      by_cases h2 : (c == '@') = true
      · rw [if_pos h2] at h
        by_cases h3 : run.isEmpty = true
        · rw [if_pos h3] at h
          exact ih [] (by simp) out h
        · rw [if_neg h3] at h
          by_cases h4 : (rest.takeWhile isWordDotDash).isEmpty = true
          · rw [if_pos h4] at h
            exact ih [] (by simp) out h
          · rw [if_neg h4] at h
            have hout : out = run.reverse ++ '@' :: rest.takeWhile isWordDotDash := by
              have := Option.some_inj.mp h
              rw [this]
            have hat : isWordDotDash '@' = false := by decide
            have hrun0 : run.reverse.count '@' = 0 := by
              rw [List.count_eq_zero]
              intro hm
              have := hrun '@' (List.mem_reverse.mp hm)
              rw [hat] at this
              exact Bool.false_ne_true this
            have htw0 : (rest.takeWhile isWordDotDash).count '@' = 0 := by
              rw [List.count_eq_zero]
              intro hm
              have := List.mem_takeWhile_imp hm
              rw [hat] at this
              exact Bool.false_ne_true this
            constructor
            · rw [hout, List.count_append, hrun0, List.count_cons_self, htw0]
            · intro x hx hxne
              rw [hout] at hx
              rcases List.mem_append.mp hx with hx | hx
              · exact hrun x (List.mem_reverse.mp hx)
              · rcases List.mem_cons.mp hx with rfl | hx
                · exact absurd rfl hxne
                · exact List.mem_takeWhile_imp hx
      · rw [if_neg h2] at h
        exact ih [] (by simp) out h

theorem findEmail_good (l e : String) (h : findEmail l = some e) :
    e.data.count '@' = 1 ∧ ∀ c ∈ e.data, c ≠ '@' → isWordDotDash c = true := by
  unfold findEmail at h
  cases hs : scanEmail [] l.data with
  | none => rw [hs] at h; simp at h
  | some out =>
    rw [hs] at h
    simp at h
    have := scanEmail_good l.data [] (by simp) out hs
    rw [← h]
    exact this

/-! ### Generic list helpers -/

theorem filter_self_filter {α : Type} (p : α → Bool) (l : List α) :
    (l.filter p).filter p = l.filter p := by
  induction l with
  | nil => rfl
  | cons a as ih => cases h : p a <;> simp [List.filter_cons, h, ih]

theorem foldl_concat_map {α β : Type} (f : α → β) (l : List α) :
    ∀ acc : List β,
      l.foldl (fun a p => a ++ [f p]) acc = acc ++ l.map f := by
  induction l with
  | nil => intro acc; simp
  | cons x xs ih => intro acc; rw [List.foldl_cons, ih]; simp

/-! ### The claims -/

/-- C1, counterexample: on `"a@b\nc@d"` the earliest `@` line is `"a@b"`
and its first regex match is `"a@b"`, yet `parse_text` returns `"c@d"`:
the later matching line overwrote the recorded e-mail, so "first match
wins / never overwritten" is false of the code. -/
theorem parse_text_email_overwritten_cex :
    splitlines "a@b\nc@d" = ["a@b", "c@d"]
    ∧ findEmail "a@b" = some "a@b"
    ∧ (parse_text "a@b\nc@d").email = "c@d"
    ∧ ("c@d" : String) ≠ "a@b" := by decide

/-- C1, amended: the e-mail returned by `parse_text` is the first regex
match of the LAST line (in original line order) that contains `@` and
yields a match of `[\w.-]+@[\w.-]+`; each later matching line overwrites
the previously recorded e-mail, and it is `""` when no line matches. -/
theorem parse_text_email_last_line_wins (text : String) :
    (parse_text text).email = (lastEmail (splitlines text)).getD "" :=
  parse_text_email text

/-- C2, counterexample: the line `"tel x"` matches the contact-info
trigger `tel` and is appended to `contact_info`, and the very same line
is also added to `candidateProducts` — contact-info and product-candidate
classification are not mutually exclusive in the code. -/
theorem parse_text_contact_product_cofire_cex :
    contactHit (lowerStr "tel x") = true
    ∧ (parse_text "tel x").contact_info = "tel x"
    ∧ stripStr "tel x" ∈ (parse_text "tel x").products := by decide

/-- C2, amended: a line consumed by the e-mail branch (it contains `@`)
or by the company branch (company marker in its lowercased form) is
never added to `candidateProducts`; the contact-info trigger, however,
is evaluated independently and does not exclude product candidacy. -/
theorem parseLine_email_company_excl_products (st : ParseState)
    (line : String)
    (h : substr "@" line = true ∨ companyHit (lowerStr line) = true) :
    (parseLine st line).products = st.products := by
  rw [parseLine_products]
  rcases h with h | h <;> simp [h]

/-- Witness for the amended C2 at the concrete line `"a@b"`. -/
theorem parseLine_email_company_excl_products_witness :
    (parseLine ⟨"", "", "", []⟩ "a@b").products = [] :=
  parseLine_email_company_excl_products ⟨"", "", "", []⟩ "a@b"
    (Or.inl (by decide))

/-- C3: `parse_text` is total (it is a Lean function, defined on every
string), and on the empty string it returns empty company name, empty
contact info, empty e-mail and an empty product collection. -/
theorem parse_text_total_and_empty :
    (∀ text : String, ∃ st : ParseState, parse_text text = st)
    ∧ parse_text "" = ⟨"", "", "", []⟩ :=
  ⟨fun text => ⟨parse_text text, rfl⟩, by decide⟩

/-- C4: a line of the text with no `@`, no company marker and no
contact trigger: with exactly 5 whitespace-delimited tokens and at least
one alphabetic character its trimmed form ends up in the product
collection of `parse_text`; with 6 tokens the loop iteration leaves the
product list unchanged. -/
theorem parse_text_product_threshold (text line : String)
    (hmem : line ∈ splitlines text)
    (hat : substr "@" line = false)
    (hco : companyHit (lowerStr line) = false)
    (hct : contactHit (lowerStr line) = false) :
    (countTokens line.data = 5 → line.data.any Char.isAlpha = true →
        stripStr line ∈ (parse_text text).products)
    ∧ (countTokens line.data = 6 →
        ∀ st : ParseState, (parseLine st line).products = st.products) := by
  constructor
  · intro h5 halpha
    apply parse_text_products_mem text line hmem
    simp [hat, hco, productHit, h5, halpha]
  · intro h6 st
    rw [parseLine_products]
    have hp : productHit line = false := by
      unfold productHit
      rw [h6]
      simp
    rw [hp]
    simp

/-- Witness for C4 at the 5-token line `"aa bb cc dd ee"` (tokens of
more than one character, so token counting and character counting
differ). -/
theorem parse_text_product_threshold_witness :
    stripStr "aa bb cc dd ee" ∈ (parse_text "aa bb cc dd ee").products :=
  (parse_text_product_threshold "aa bb cc dd ee" "aa bb cc dd ee"
    (by decide) (by decide) (by decide) (by decide)).1 (by decide) (by decide)

/-- C5: when at least two lines of the text fire the company branch (a
company marker in the lowercased line and no `@`), the company name
returned by `parse_text` is the trimmed text of the last such line —
last match wins. -/
theorem parse_text_company_last_wins (text l : String) (ls : List String)
    (hf : (splitlines text).filter companyLine = ls ++ [l])
    (h2 : 2 ≤ (ls ++ [l]).length) :
    (parse_text text).company_name = stripStr l := by
  have hc := parse_text_company text
  rw [lastCompany_eq_filter, hf, List.getLast?_concat] at hc
  simpa using hc

/-- Witness for C5 on a two-trigger document. -/
theorem parse_text_company_last_wins_witness :
    (parse_text "x ltd\ny inc.").company_name = stripStr "y inc." :=
  parse_text_company_last_wins "x ltd\ny inc." "y inc." ["x ltd"]
    (by decide) (by decide)

/-- C6: `filter_products` retains exactly the products containing,
case-insensitively, some keyword of the category's configured list as a
substring; an unknown category such as `"metals"` has the empty keyword
list and yields the empty result rather than an error. -/
theorem filter_products_keyword_membership :
    (∀ (products : List String) (category p : String),
        p ∈ filter_products products category ↔
          p ∈ products ∧
            ∃ kw ∈ KEYWORDS category,
              substr (lowerStr kw) (lowerStr p) = true)
    ∧ ∀ products : List String, filter_products products "metals" = [] := by
  constructor
  · intro products category p
    unfold filter_products
    rw [List.mem_filter, List.any_eq_true]
  · intro products
    unfold filter_products
    have h : KEYWORDS "metals" = [] := rfl
    rw [h]
    simp

/-- C7: `filter_products` is idempotent — filtering an already filtered
product list by the same category changes nothing. -/
theorem filter_products_idempotent (products : List String)
    (category : String) :
    filter_products (filter_products products category) category
      = filter_products products category := by
  unfold filter_products
  exact filter_self_filter _ _

/-- C8: `enrich_with_codes` maps each input product, in order, to the
triple produced by the exact case-sensitive table lookup (with
empty-string codes on a miss); in particular on `["PVC Resin"]` and on
`["Unknown Product"]` it returns the stated triples. -/
theorem enrich_with_codes_lookup :
    (∀ products : List String,
        enrich_with_codes products = products.map lookupCodes)
    ∧ enrich_with_codes ["PVC Resin"]
        = [("PVC Resin", "20.16", "3904.10")]
    ∧ enrich_with_codes ["Unknown Product"]
        = [("Unknown Product", "", "")] := by
  refine ⟨?_, by decide, by decide⟩
  intro products
  have h : enrich_with_codes products
      = products.foldl (fun a p => a ++ [lookupCodes p]) [] := rfl
  rw [h, foldl_concat_map]
  simp

/-- C9: a non-empty e-mail returned by `parse_text` is a match of
`[\w.-]+@[\w.-]+`: it contains exactly one `@` and every other character
is a word character, a dot or a dash. -/
theorem parse_text_email_wellformed (text : String)
    (h : (parse_text text).email ≠ "") :
    (parse_text text).email.data.count '@' = 1
    ∧ ∀ c ∈ (parse_text text).email.data,
        c ≠ '@' → isWordDotDash c = true := by
  have he := parse_text_email text
  cases hE : lastEmail (splitlines text) with
  | none => rw [hE] at he; simp at he; exact absurd he h
  | some e =>
    rw [hE] at he
    simp at he
    obtain ⟨l, hl⟩ := lastEmail_some _ _ hE
    rw [he]
    exact findEmail_good l e hl

/-- Witness for C9 on the document `"a@b"`. -/
theorem parse_text_email_wellformed_witness :
    (parse_text "a@b").email.data.count '@' = 1
    ∧ ∀ c ∈ (parse_text "a@b").email.data,
        c ≠ '@' → isWordDotDash c = true :=
  parse_text_email_wellformed "a@b" (by decide)

/-- C10: the output of `filter_products` is a sublist (subsequence) of
its input: every retained element occurs in the input, in the same
relative order, and no element's multiplicity grows. -/
theorem filter_products_sublist_input (products : List String)
    (category : String) :
    (filter_products products category).Sublist products
    ∧ ∀ p : String,
        (filter_products products category).count p
          ≤ products.count p :=
  ⟨List.filter_sublist _,
    fun p => List.Sublist.count_le (List.filter_sublist _) p⟩
